import Mathlib

/-! Verification model of `sheetcarrierdensityvsdepthplotter.py`.

Numbers are modelled as exact rationals together with the IEEE-754 special
values (`+inf`, `-inf`, `nan`) that numpy arithmetic produces on degenerate
inputs; rounding of finite values is outside the model.  Library calls
(`np.gradient`, `np.nan_to_num`, `np.trapezoid`, `pandas.read_csv`,
`DataFrame.dropna`) are embedded with their documented semantics at the
call sites the program uses. -/

namespace NcvZcv

set_option maxRecDepth 100000

/-- A floating-point value: an exact finite rational or an IEEE special value. -/
inductive EFloat where
  | fin (val : ℚ)
  | pinf
  | ninf
  | nan
deriving DecidableEq

/-- IEEE addition on `EFloat` (numpy elementwise `+` semantics). -/
def eadd : EFloat → EFloat → EFloat
  | .fin a, .fin b => .fin (a + b)
  | .fin _, .pinf => .pinf
  | .fin _, .ninf => .ninf
  | .fin _, .nan => .nan
  | .pinf, .fin _ => .pinf
  | .pinf, .pinf => .pinf
  | .pinf, .ninf => .nan
  | .pinf, .nan => .nan
  | .ninf, .fin _ => .ninf
  | .ninf, .pinf => .nan
  | .ninf, .ninf => .ninf
  | .ninf, .nan => .nan
  | .nan, _ => .nan

/-- IEEE subtraction on `EFloat`. -/
def esub : EFloat → EFloat → EFloat
  | .fin a, .fin b => .fin (a - b)
  | .fin _, .pinf => .ninf
  | .fin _, .ninf => .pinf
  | .fin _, .nan => .nan
  | .pinf, .fin _ => .pinf
  | .pinf, .pinf => .nan
  | .pinf, .ninf => .pinf
  | .pinf, .nan => .nan
  | .ninf, .fin _ => .ninf
  | .ninf, .pinf => .ninf
  | .ninf, .ninf => .nan
  | .ninf, .nan => .nan
  | .nan, _ => .nan

/-- IEEE multiplication on `EFloat` (`0 * inf = nan`). -/
def emul : EFloat → EFloat → EFloat
  | .fin a, .fin b => .fin (a * b)
  | .fin a, .pinf => if a = 0 then .nan else if 0 < a then .pinf else .ninf
  | .fin a, .ninf => if a = 0 then .nan else if 0 < a then .ninf else .pinf
  | .fin _, .nan => .nan
  | .pinf, .fin b => if b = 0 then .nan else if 0 < b then .pinf else .ninf
  | .pinf, .pinf => .pinf
  | .pinf, .ninf => .ninf
  | .pinf, .nan => .nan
  | .ninf, .fin b => if b = 0 then .nan else if 0 < b then .ninf else .pinf
  | .ninf, .pinf => .ninf
  | .ninf, .ninf => .pinf
  | .ninf, .nan => .nan
  | .nan, _ => .nan

/-- Division of two finite doubles, with the IEEE zero-divisor results numpy
produces (`0/0 = nan`, `x/0 = ±inf` by the sign of `x`). -/
def qdiv (a b : ℚ) : EFloat :=
  if b = 0 then (if a = 0 then .nan else if 0 < a then .pinf else .ninf)
  else .fin (a / b)

/-- IEEE division on `EFloat`. -/
def ediv : EFloat → EFloat → EFloat
  | .fin a, .fin b => qdiv a b
  | .fin _, .pinf => .fin 0
  | .fin _, .ninf => .fin 0
  | .fin _, .nan => .nan
  | .pinf, .fin b => if 0 ≤ b then .pinf else .ninf
  | .pinf, .pinf => .nan
  | .pinf, .ninf => .nan
  | .pinf, .nan => .nan
  | .ninf, .fin b => if 0 ≤ b then .ninf else .pinf
  | .ninf, .pinf => .nan
  | .ninf, .ninf => .nan
  | .ninf, .nan => .nan
  | .nan, _ => .nan

/-- IEEE absolute value on `EFloat` (`np.abs`). -/
def eabs : EFloat → EFloat
  | .fin a => .fin |a|
  | .pinf => .pinf
  | .ninf => .pinf
  | .nan => .nan

/-- Semantics of `np.nan_to_num(x, nan=0.0, posinf=1e10, neginf=-1e10)` at one
entry: the replacement value is always finite. -/
def nan2num : EFloat → ℚ
  | .fin v => v
  | .pinf => 10000000000
  | .ninf => -10000000000
  | .nan => 0

/-- Permittivity of free space (F/m); `epsilon_0 = 8.854e-12` in the source. -/
def epsilon_0 : ℚ := 8854 / 1000000000000000

/-- Elementary charge (C); `q = 1.602e-19` in the source. -/
def q : ℚ := 1602 / 10000000000000000000000

/-- The exact rational value of the IEEE double `np.pi`. -/
def np_pi : ℚ := 884279719003555 / 281474976710656

/-- One row of the parsed sweep table:
`(Voltage(V), C_Forward(F), C_Backward(F))`. -/
structure SRow where
  v : ℚ
  cf : ℚ
  cb : ℚ
deriving DecidableEq

/-- The validated table of sweep rows (the `df` produced by
`process_txt_file`), in sweep order. -/
abbrev SweepTable := List SRow

/-- Semantics of 1-D `np.gradient` with unit spacing and `edge_order=1`:
one-sided differences at the two boundaries, central differences in the
interior.  `np.gradient` raises for arrays of fewer than 2 elements; the
caller (`calculate_ncv_zcv`) guards that case. -/
def npGradient (l : List ℚ) : List ℚ :=
  List.ofFn (fun i : Fin l.length =>
    if i.val = 0 then l.getD 1 0 - l.getD 0 0
    else if i.val = l.length - 1 then
      l.getD (l.length - 1) 0 - l.getD (l.length - 2) 0
    else (l.getD (i.val + 1) 0 - l.getD (i.val - 1) 0) / 2)

/-- The sentinel-replaced derivative `dV/dC`:
`np.nan_to_num(np.gradient(V) / np.gradient(C), nan=0.0, posinf=1e10,
neginf=-1e10)` — lines 60-64 of the source.  Note the replacement is applied
here only; later sequences are not passed through `np.nan_to_num`. -/
def dVdC (V C : List ℚ) : List ℚ :=
  (List.zipWith qdiv (npGradient V) (npGradient C)).map nan2num

/-- `Ncv = (C**3 / (epsilon_0 * epsilon_r * A**2 * q)) * dV_dC`, elementwise
(line 66 of the source). -/
def ncv (C d : List ℚ) (A er : ℚ) : List EFloat :=
  List.zipWith (fun c dv => emul (qdiv (c ^ 3) (epsilon_0 * er * A ^ 2 * q)) (EFloat.fin dv)) C d

/-- `Zcv = (epsilon_0 * epsilon_r * A) / C`, elementwise (line 69). -/
def zcv (C : List ℚ) (A er : ℚ) : List EFloat :=
  C.map (fun c => qdiv (epsilon_0 * er * A) c)

/-- `np.abs(Ncv * 1e-6)` — conversion to cm⁻³ and magnitude (line 72). -/
def ncv_cm3 (l : List EFloat) : List EFloat :=
  l.map (fun x => eabs (emul x (EFloat.fin (1 / 1000000))))

/-- `Zcv * 1e9` — conversion to nm (lines 74 and 79). -/
def zcv_nm (l : List EFloat) : List EFloat :=
  l.map (fun x => emul x (EFloat.fin 1000000000))

/-- Semantics of `np.trapezoid(y, x)`: the signed sum of
`(x[i+1] - x[i]) * (y[i] + y[i+1]) / 2` over consecutive pairs, `0.0` when
fewer than two samples remain. -/
def npTrapezoid : List EFloat → List EFloat → EFloat
  | y0 :: y1 :: ys, x0 :: x1 :: xs =>
      eadd (emul (esub x1 x0) (ediv (eadd y0 y1) (EFloat.fin 2)))
        (npTrapezoid (y1 :: ys) (x1 :: xs))
  | _, _ => .fin 0

/-- The rational specialization of `npTrapezoid` for all-finite inputs
(proof infrastructure). -/
def trapzQ : List ℚ → List ℚ → ℚ
  | y0 :: y1 :: ys, x0 :: x1 :: xs =>
      (x1 - x0) * ((y0 + y1) / 2) + trapzQ (y1 :: ys) (x1 :: xs)
  | _, _ => 0

/-- The per-frequency output of `calculate_ncv_zcv`: the five columns of
`result_df` (voltage, forward/backward depth in nm, forward/backward density
in cm⁻³) and the two integrated sheet densities. -/
structure Profile where
  voltage : List ℚ
  zf : List EFloat
  zb : List EFloat
  nf : List EFloat
  nb : List EFloat
  intF : EFloat
  intB : EFloat
deriving DecidableEq

/-- Embedding of `calculate_ncv_zcv(df, A, epsilon_r)` (lines 55-85).  The
`t.length < 2` guard models the `ValueError` `np.gradient` raises when the
table has fewer than `edge_order + 1 = 2` rows: no `Profile` is produced. -/
def calculate_ncv_zcv (t : SweepTable) (A er : ℚ) : Option Profile :=
  if t.length < 2 then none
  else
    let V := t.map SRow.v
    let Cf := t.map SRow.cf
    let Cb := t.map SRow.cb
    let dF := dVdC V Cf
    let dB := dVdC V Cb
    let nF := ncv_cm3 (ncv Cf dF A er)
    let nB := ncv_cm3 (ncv Cb dB A er)
    let zF := zcv_nm (zcv Cf A er)
    let zB := zcv_nm (zcv Cb A er)
    some ⟨V, zF, zB, nF, nB, npTrapezoid nF zF, npTrapezoid nB zB⟩

/-- A whitespace-delimited token of one input line, classified the way
`pandas.read_csv` will read it: a numeric literal, an NA literal (`nan`,
`NA`, … — pandas' default `na_values`), or any other non-numeric word. -/
inductive Tok where
  | num (val : ℚ)
  | nalit
  | word
deriving DecidableEq

/-- One cell of the parsed dataframe: a number, a retained non-numeric
string (object dtype), or a missing value (NaN). -/
inductive Cell where
  | num (val : ℚ)
  | txt
  | na
deriving DecidableEq

/-- How `read_csv` turns a present token into a dataframe cell. -/
def tokCell : Tok → Cell
  | .num v => .num v
  | .nalit => .na
  | .word => .txt

/-- Decides whether a cell is a missing value (what `dropna` inspects). -/
def isNA : Cell → Bool
  | .na => true
  | _ => false

/-- One line of the input text, carrying its two splittings, which the
program computes independently and which can disagree:
`toks` is the `line.split()` tokenization used by the filter at line 35
(Python `str.split`: any Unicode whitespace, no quote awareness), and
`fields` is the field list the `read_csv(sep=r'\s+')` C tokenizer produces
for the same line (ASCII space/tab delimiters in whitespace mode, honouring
`quotechar='"'`).  For a line without quote characters and with only ASCII
whitespace the two lists coincide; a quoted region or a non-ASCII space
(e.g. U+00A0) makes `fields` shorter than `toks`. -/
structure Line where
  toks : List Tok
  fields : List Tok
deriving DecidableEq

/-- A line on which `str.split()` tokenization and the pandas C tokenizer
agree (no quote characters, ASCII whitespace only). -/
def plainLine (ts : List Tok) : Line := ⟨ts, ts⟩

/-- Semantics of `pd.read_csv(..., sep=r'\s+', header=None)` on the joined
filtered lines, given each line's field list: the column count is fixed by
the first line; a later line with more fields raises `ParserError`
(modelled as `none`); shorter lines are padded with NaN. -/
def readCsv (lines : List (List Tok)) : Option (List (List Cell)) :=
  let ncols := (lines.headD []).length
  if lines.any (fun ln => decide (ncols < ln.length)) then none
  else some (lines.map (fun ln => (List.range ncols).map (fun j => (ln.map tokCell).getD j Cell.na)))

/-- `df.iloc[:, :3]` on one row: the first three cells. -/
def take3 (r : List Cell) : Cell × Cell × Cell :=
  (r.getD 0 .na, r.getD 1 .na, r.getD 2 .na)

/-- The outcome of `process_txt_file`, tagged by the branch that produced it
(the source prints a distinct message per branch and returns `None` for the
first three). -/
inductive ParseOut where
  | emptyAfterFilter
  | insufficientCols
  | parserErr
  | ok (rows : List (Cell × Cell × Cell))
deriving DecidableEq

/-- Embedding of `process_txt_file` (lines 20-52) after decoding and comma
normalization.  Filtering keeps lines whose `str.split()` token count is at
least 3 (line 35); `read_csv` then re-splits the retained lines with its own
tokenizer (the `fields` view), the `shape[1] < 3` check inspects the
resulting column count, and the kept rows are truncated to the first three
columns and passed through `dropna`. -/
def process_txt_file (lines : List Line) : ParseOut :=
  let filtered := lines.filter (fun l => decide (3 ≤ l.toks.length))
  if filtered.isEmpty then .emptyAfterFilter
  else
    match readCsv (filtered.map Line.fields) with
    | none => .parserErr
    | some rows =>
      if ((filtered.map Line.fields).headD []).length < 3 then .insufficientCols
      else .ok ((rows.map take3).filter (fun r => !(isNA r.1 || isNA r.2.1 || isNA r.2.2)))

/-- ASCII alphanumeric test, the `[A-Za-z0-9]` class of the sample regex. -/
def isAlnumCh (c : Char) : Bool := c.isAlpha || c.isDigit

/-- Tries to match the regex `C\(V\)_0_([A-Za-z0-9]+)_` at the head of the
string, returning the captured group.  The captured run is the maximal
alphanumeric run (greedy `+`), which must be nonempty and followed by `_`. -/
def matchSampleAt (s : List Char) : Option (List Char) :=
  match s with
  | 'C' :: '(' :: 'V' :: ')' :: '_' :: '0' :: '_' :: rest =>
    let run := rest.takeWhile isAlnumCh
    (match rest.drop run.length with
     | '_' :: _ => if run.isEmpty then none else some run
     | _ => none)
  | _ => none

/-- `re.search`: tries the pattern at each start position, left to right. -/
def searchSample : List Char → Option (List Char)
  | [] => none
  | c :: rest =>
    match matchSampleAt (c :: rest) with
    | some r => some r
    | none => searchSample rest

/-- The literal fallback sample name "Unknown". -/
def unknownName : List Char := ['U', 'n', 'k', 'n', 'o', 'w', 'n']

/-- Embedding of `extract_sample_name(filename)` (lines 88-93). -/
def extract_sample_name (fname : List Char) : List Char :=
  (searchSample fname).getD unknownName

/-- One CLI input file: its basename and its content lines. -/
structure CliFile where
  name : List Char
  lines : List Line
deriving DecidableEq

/-- A parsed dataframe row usable by `calculate_ncv_zcv`: all three kept
cells numeric.  A retained non-numeric (object-dtype) cell makes the numpy
arithmetic in `calculate_ncv_zcv` raise, modelled as `none`. -/
def toRow (r : Cell × Cell × Cell) : Option SRow :=
  match r with
  | (.num a, .num b, .num c) => some ⟨a, b, c⟩
  | _ => none

/-- Converts parsed rows to a `SweepTable`, `none` when any kept cell is
non-numeric (the downstream arithmetic would raise). -/
def toTable (rows : List (Cell × Cell × Cell)) : Option SweepTable :=
  rows.mapM toRow

/-- What processing one file inside the `run_cli_mode` loop does: skip the
file (`df is None`), crash with an uncaught exception, or record a profile
together with the sample name extracted from the filename. -/
inductive FileRes where
  | crash
  | skipped
  | okF (sample : List Char)
deriving DecidableEq

/-- One iteration of the file loop of `run_cli_mode` (lines 115-123). -/
def runFile (A er : ℚ) (f : CliFile) : FileRes :=
  match process_txt_file f.lines with
  | .emptyAfterFilter => .skipped
  | .insufficientCols => .skipped
  | .parserErr => .crash
  | .ok rows =>
    match toTable rows with
    | none => .crash
    | some t =>
      match calculate_ncv_zcv t A er with
      | none => .crash
      | some _ => .okF (extract_sample_name f.name)

/-- The sample names accumulated by the loop (`sample_names`, in file
order), or `none` if some file raised an uncaught exception. -/
def collectSamples (A er : ℚ) : List CliFile → Option (List (List Char))
  | [] => some []
  | f :: fs =>
    match runFile A er f with
    | .crash => none
    | .skipped => collectSamples A er fs
    | .okF s => (collectSamples A er fs).map (fun l => s :: l)

/-- The outcome of the batch part of `run_cli_mode`: crash, the
mixed-sample rejection, or proceeding to write the workbook and plots for
`fileCount` successfully processed files under `sample`. -/
inductive CliOut where
  | crash
  | mixedSample
  | wrote (sample : List Char) (fileCount : ℕ)
deriving DecidableEq

/-- Embedding of the batch logic of `run_cli_mode` (lines 112-141) given the
already-computed area and permittivity: collect sample names over all files,
reject when the *set* of collected names has more than one element
(`len(sample_names) > 1`), otherwise pop the single name (or "Unknown" for
an empty set) and write the output artifacts.  The Excel/plot rendering
itself is outside the model; `wrote` records that the writing phase is
reached. -/
def run_cli_mode (A er : ℚ) (files : List CliFile) : CliOut :=
  match collectSamples A er files with
  | none => .crash
  | some names =>
    if 1 < names.dedup.length then .mixedSample
    else .wrote (names.headD unknownName) names.length

/-- `A = np.pi * ((diameter * 1e-6) / 2)**2` (lines 106-107). -/
def area (d : ℚ) : ℚ := np_pi * ((d * (1 / 1000000)) / 2) ^ 2

/-- Argparse parameter handling (lines 99-104): `--files` is declared
`nargs='+', required=True`, so `parse_args` exits unless at least one file
path is supplied; each of diameter/epsilon/interface is `type=float`, and a
non-numeric argument (modelled as `none`) also makes `parse_args` exit
before any file is read.  No sign or positivity check is performed on the
numeric parameters. -/
def cli_parse_params (files : List CliFile) (d e i : Option ℚ) : Option (ℚ × ℚ × ℚ) :=
  match files, d, e, i with
  | _ :: _, some dv, some ev, some iv => some (dv, ev, iv)
  | _, _, _, _ => none

/-- The whole CLI entry: parameter parsing, then the batch run with the
computed area.  `none` models the argparse error exit (no file touched). -/
def cli_main (d e i : Option ℚ) (files : List CliFile) : Option CliOut :=
  match cli_parse_params files d e i with
  | none => none
  | some (dv, ev, _) => some (run_cli_mode (area dv) ev files)

/-- Decides whether an `EFloat` is a negative finite value or `-inf`. -/
def efNeg : EFloat → Bool
  | .fin v => decide (v < 0)
  | .ninf => true
  | _ => false

/- Concrete fixtures used by witnesses and counterexamples. -/

/-- A one-row table: `np.gradient` raises on it. -/
def tSingle : SweepTable := [⟨0, 1, 1⟩]

/-- A table whose second row has zero forward capacitance. -/
def tZeroCap : SweepTable := [⟨0, 1, 1⟩, ⟨1, 0, 1⟩]

/-- A table with increasing forward capacitance (decreasing depth). -/
def tIncCap : SweepTable := [⟨0, 1, 1⟩, ⟨1, 2, 2⟩]

/-- A table whose forward capacitance is constant across exactly the first
step (`ΔC = 0` at one index) and everywhere nonzero. -/
def tFlatStep : SweepTable := [⟨0, 1, 1⟩, ⟨1, 1, 2⟩, ⟨2, 2, 3⟩]

/-- A well-behaved table: strictly increasing voltage, strictly decreasing
positive capacitances. -/
def tGood : SweepTable := [⟨0, 4, 4⟩, ⟨1, 2, 2⟩, ⟨2, 1, 1⟩]

/-- A file whose name matches the sample regex with sample `A1`. -/
def fileNamed : CliFile :=
  ⟨['C', '(', 'V', ')', '_', '0', '_', 'A', '1', '_', '1', 'k', 'H', 'z'],
   [plainLine [.num 0, .num 1, .num 1], plainLine [.num 1, .num 2, .num 2]]⟩

/-- A second file of the same sample `A1` at a different frequency label. -/
def fileNamed2 : CliFile :=
  ⟨['C', '(', 'V', ')', '_', '0', '_', 'A', '1', '_', '2', 'k', 'H', 'z'],
   [plainLine [.num 0, .num 2, .num 2], plainLine [.num 1, .num 3, .num 3]]⟩

/-- A file whose name does not match the sample regex (sample "Unknown"). -/
def fileNoName : CliFile :=
  ⟨['d', 'a', 't', 'a', '.', 't', 'x', 't'],
   [plainLine [.num 0, .num 3, .num 3], plainLine [.num 1, .num 4, .num 4]]⟩

/-- A file that is empty after filtering (every line has < 3 tokens). -/
def fileBlank : CliFile := ⟨['b', '.', 't', 'x', 't'], [plainLine [.num 1]]⟩

/-- Lines mixing a non-numeric header row (3 words) with a numeric row. -/
def linesMixed : List Line :=
  [plainLine [.word, .word, .word], plainLine [.num 1, .num 2, .num 3]]

/-- Model of the single line `"a b c d"` (with literal double quotes):
`str.split()` yields the four tokens `"a`, `b`, `c`, `d"`, but the
`read_csv` C tokenizer reads the whole quoted region as one field. -/
def quotedLine : Line := ⟨[.word, .word, .word, .word], [.word]⟩

/-! Helper lemmas. -/

theorem epsilon_0_pos : 0 < epsilon_0 := by norm_num [epsilon_0]

theorem q_pos : 0 < q := by norm_num [q]

theorem e9_pos : (0 : ℚ) < 1000000000 := by norm_num

theorem e6_pos : (0 : ℚ) < 1 / 1000000 := by norm_num

theorem getD_map_of_lt {α β : Type} (f : α → β) (l : List α) {i : ℕ} (h : i < l.length)
    (d : β) (d' : α) : (l.map f).getD i d = f (l.getD i d') := by
  rw [List.getD_eq_getElem _ d (by simpa using h), List.getD_eq_getElem _ d' h, List.getElem_map]

theorem getD_zipWith_of_lt {α β γ : Type} (f : α → β → γ) (l1 : List α) (l2 : List β) {i : ℕ}
    (h1 : i < l1.length) (h2 : i < l2.length) (d : γ) (d1 : α) (d2 : β) :
    (List.zipWith f l1 l2).getD i d = f (l1.getD i d1) (l2.getD i d2) := by
  have hz : i < (List.zipWith f l1 l2).length := by
    rw [List.length_zipWith]; omega
  rw [List.getD_eq_getElem _ d hz, List.getD_eq_getElem _ d1 h1, List.getD_eq_getElem _ d2 h2,
    List.getElem_zipWith]

theorem length_npGradient (l : List ℚ) : (npGradient l).length = l.length := by
  simp [npGradient]

theorem getD_npGradient (l : List ℚ) {i : ℕ} (h : i < l.length) :
    (npGradient l).getD i 0 =
      if i = 0 then l.getD 1 0 - l.getD 0 0
      else if i = l.length - 1 then l.getD (l.length - 1) 0 - l.getD (l.length - 2) 0
      else (l.getD (i + 1) 0 - l.getD (i - 1) 0) / 2 := by
  have hg : i < (npGradient l).length := by rw [length_npGradient]; exact h
  rw [List.getD_eq_getElem _ _ hg]
  simp [npGradient, List.getElem_ofFn]

theorem chain'_getD {R : ℚ → ℚ → Prop} {l : List ℚ} (hc : List.Chain' R l) {i : ℕ}
    (h : i + 1 < l.length) : R (l.getD i 0) (l.getD (i + 1) 0) := by
  rw [List.getD_eq_getElem _ _ (by omega), List.getD_eq_getElem _ _ h]
  have hg := List.chain'_iff_get.mp hc i (by omega)
  simpa [List.get_eq_getElem] using hg

theorem npGradient_pos {l : List ℚ} (h2 : 2 ≤ l.length) (hm : List.Chain' (· < ·) l) {i : ℕ}
    (h : i < l.length) : 0 < (npGradient l).getD i 0 := by
  rw [getD_npGradient l h]
  split
  next h0 =>
    subst h0
    have hs := chain'_getD hm (show 0 + 1 < l.length by omega)
    simp only [zero_add] at hs
    linarith
  next h0 =>
    split
    next h1 =>
      have hs := chain'_getD hm (show (l.length - 2) + 1 < l.length by omega)
      have he : l.length - 2 + 1 = l.length - 1 := by omega
      rw [he] at hs
      linarith
    next h1 =>
      have ha := chain'_getD hm (show (i - 1) + 1 < l.length by omega)
      have hb := chain'_getD hm (show i + 1 < l.length by omega)
      have he : i - 1 + 1 = i := by omega
      rw [he] at ha
      have hab : l.getD (i - 1) 0 < l.getD (i + 1) 0 := lt_trans ha hb
      linarith

theorem npGradient_neg {l : List ℚ} (h2 : 2 ≤ l.length) (hm : List.Chain' (· > ·) l) {i : ℕ}
    (h : i < l.length) : (npGradient l).getD i 0 < 0 := by
  rw [getD_npGradient l h]
  split
  next h0 =>
    subst h0
    have hs := chain'_getD hm (show 0 + 1 < l.length by omega)
    simp only [zero_add] at hs
    have hs' : l.getD 1 0 < l.getD 0 0 := hs
    linarith
  next h0 =>
    split
    next h1 =>
      have hs := chain'_getD hm (show (l.length - 2) + 1 < l.length by omega)
      have he : l.length - 2 + 1 = l.length - 1 := by omega
      rw [he] at hs
      have hs' : l.getD (l.length - 1) 0 < l.getD (l.length - 2) 0 := hs
      linarith
    next h1 =>
      have ha := chain'_getD hm (show (i - 1) + 1 < l.length by omega)
      have hb := chain'_getD hm (show i + 1 < l.length by omega)
      have he : i - 1 + 1 = i := by omega
      rw [he] at ha
      have ha' : l.getD i 0 < l.getD (i - 1) 0 := ha
      have hb' : l.getD (i + 1) 0 < l.getD i 0 := hb
      have hab : l.getD (i + 1) 0 < l.getD (i - 1) 0 := lt_trans hb' ha'
      linarith

theorem length_dVdC (V C : List ℚ) : (dVdC V C).length = min V.length C.length := by
  simp [dVdC, List.length_zipWith, length_npGradient]

theorem getD_dVdC (V C : List ℚ) {i : ℕ} (hV : i < V.length) (hC : i < C.length) :
    (dVdC V C).getD i 0 =
      nan2num (qdiv ((npGradient V).getD i 0) ((npGradient C).getD i 0)) := by
  have h1 : i < (npGradient V).length := by rw [length_npGradient]; exact hV
  have h2 : i < (npGradient C).length := by rw [length_npGradient]; exact hC
  have hz : i < (List.zipWith qdiv (npGradient V) (npGradient C)).length := by
    rw [List.length_zipWith]; omega
  rw [dVdC, getD_map_of_lt nan2num _ hz 0 EFloat.nan,
    getD_zipWith_of_lt qdiv _ _ h1 h2 EFloat.nan 0 0]

theorem zipWith_fin {α β : Type} (g : α → β → ℚ) (l1 : List α) (l2 : List β) :
    List.zipWith (fun a b => EFloat.fin (g a b)) l1 l2 =
      (List.zipWith g l1 l2).map EFloat.fin :=
  (List.map_zipWith EFloat.fin g l1 l2).symm

theorem ncv_repr {C d : List ℚ} {A er : ℚ} (hk : epsilon_0 * er * A ^ 2 * q ≠ 0) :
    ncv C d A er =
      (List.zipWith (fun c dv => c ^ 3 / (epsilon_0 * er * A ^ 2 * q) * dv) C d).map
        EFloat.fin := by
  unfold ncv
  rw [← zipWith_fin]
  congr 1
  funext c dv
  rw [qdiv, if_neg hk]
  rfl

theorem zcv_repr {C : List ℚ} {A er : ℚ} (hC : ∀ c ∈ C, c ≠ 0) :
    zcv C A er = (C.map (fun c => epsilon_0 * er * A / c)).map EFloat.fin := by
  unfold zcv
  rw [List.map_map]
  exact List.map_congr_left (fun c hc => by simp [qdiv, hC c hc, Function.comp])

theorem ncv_cm3_repr (l : List ℚ) :
    ncv_cm3 (l.map EFloat.fin) = (l.map (fun x => |x * (1 / 1000000)|)).map EFloat.fin := by
  unfold ncv_cm3
  rw [List.map_map, List.map_map]
  exact List.map_congr_left (fun x _ => rfl)

theorem zcv_nm_repr (l : List ℚ) :
    zcv_nm (l.map EFloat.fin) = (l.map (fun x => x * 1000000000)).map EFloat.fin := by
  unfold zcv_nm
  rw [List.map_map, List.map_map]
  exact List.map_congr_left (fun x _ => rfl)

theorem npTrapezoid_map_fin (ys : List ℚ) : ∀ (xs : List ℚ),
    npTrapezoid (ys.map EFloat.fin) (xs.map EFloat.fin) = EFloat.fin (trapzQ ys xs) := by
  induction ys with
  | nil =>
    intro xs
    cases xs with
    | nil => rfl
    | cons x xs' => rfl
  | cons y0 ys ih =>
    intro xs
    cases ys with
    | nil =>
      cases xs with
      | nil => rfl
      | cons x0 xs' => cases xs' <;> rfl
    | cons y1 ys' =>
      cases xs with
      | nil => rfl
      | cons x0 xs' =>
        cases xs' with
        | nil => rfl
        | cons x1 xs'' =>
          show npTrapezoid
              (EFloat.fin y0 :: EFloat.fin y1 :: ys'.map EFloat.fin)
              (EFloat.fin x0 :: EFloat.fin x1 :: xs''.map EFloat.fin) = _
          rw [npTrapezoid]
          rw [show (EFloat.fin y1 :: ys'.map EFloat.fin) = (y1 :: ys').map EFloat.fin from rfl,
            show (EFloat.fin x1 :: xs''.map EFloat.fin) = (x1 :: xs'').map EFloat.fin from rfl,
            ih (x1 :: xs'')]
          rw [trapzQ]
          simp only [esub, eadd, emul, ediv, qdiv]
          norm_num

theorem trapzQ_nonneg : ∀ (ys xs : List ℚ), ys.length = xs.length →
    List.Chain' (· ≤ ·) xs → (∀ y ∈ ys, 0 ≤ y) → 0 ≤ trapzQ ys xs := by
  intro ys
  induction ys with
  | nil =>
    intro xs _ _ _
    cases xs <;> simp [trapzQ]
  | cons y0 ys ih =>
    intro xs hlen hx hy
    cases ys with
    | nil =>
      cases xs with
      | nil => simp at hlen
      | cons x0 xs' =>
        cases xs' with
        | nil => simp [trapzQ]
        | cons x1 xs'' => simp at hlen
    | cons y1 ys' =>
      cases xs with
      | nil => simp at hlen
      | cons x0 xs' =>
        cases xs' with
        | nil => simp at hlen
        | cons x1 xs'' =>
          rw [trapzQ]
          have hx01 : x0 ≤ x1 := (List.chain'_cons.mp hx).1
          have hxtail : List.Chain' (· ≤ ·) (x1 :: xs'') := (List.chain'_cons.mp hx).2
          have hy0 : 0 ≤ y0 := hy y0 (by simp)
          have hy1 : 0 ≤ y1 := hy y1 (by simp)
          have hytail : ∀ y ∈ y1 :: ys', 0 ≤ y := fun y hm => hy y (List.mem_cons_of_mem _ hm)
          have hlen' : (y1 :: ys').length = (x1 :: xs'').length := by
            simp only [List.length_cons] at hlen ⊢
            omega
          have ht := ih (x1 :: xs'') hlen' hxtail hytail
          have hhead : 0 ≤ (x1 - x0) * ((y0 + y1) / 2) := by
            apply mul_nonneg (by linarith)
            have : (0 : ℚ) ≤ y0 + y1 := by linarith
            linarith
          linarith

theorem trapzQ_pos (ys xs : List ℚ) (hlen : ys.length = xs.length) (h2 : 2 ≤ xs.length)
    (hx : List.Chain' (· < ·) xs) (hy : ∀ y ∈ ys, 0 < y) : 0 < trapzQ ys xs := by
  cases xs with
  | nil => simp at h2
  | cons x0 xs' =>
    cases xs' with
    | nil => simp at h2
    | cons x1 xs'' =>
      cases ys with
      | nil => simp at hlen
      | cons y0 ys₁ =>
        cases ys₁ with
        | nil => simp at hlen
        | cons y1 ys' =>
          rw [trapzQ]
          have hx01 : x0 < x1 := (List.chain'_cons.mp hx).1
          have hxtail : List.Chain' (· < ·) (x1 :: xs'') := (List.chain'_cons.mp hx).2
          have hy0 : 0 < y0 := hy y0 (by simp)
          have hy1 : 0 < y1 := hy y1 (by simp)
          have hytail : ∀ y ∈ y1 :: ys', 0 ≤ y :=
            fun y hm => le_of_lt (hy y (List.mem_cons_of_mem _ hm))
          have hlen' : (y1 :: ys').length = (x1 :: xs'').length := by
            simp only [List.length_cons] at hlen ⊢
            omega
          have ht := trapzQ_nonneg (y1 :: ys') (x1 :: xs'') hlen'
            (hxtail.imp (fun _ _ hab => le_of_lt hab)) hytail
          have hhead : 0 < (x1 - x0) * ((y0 + y1) / 2) := by
            apply mul_pos (by linarith)
            have : (0 : ℚ) < y0 + y1 := by linarith
            linarith
          linarith

theorem calculate_eq_some {t : SweepTable} {A er : ℚ} (h2 : 2 ≤ t.length) :
    calculate_ncv_zcv t A er = some
      ⟨t.map SRow.v,
       zcv_nm (zcv (t.map SRow.cf) A er),
       zcv_nm (zcv (t.map SRow.cb) A er),
       ncv_cm3 (ncv (t.map SRow.cf) (dVdC (t.map SRow.v) (t.map SRow.cf)) A er),
       ncv_cm3 (ncv (t.map SRow.cb) (dVdC (t.map SRow.v) (t.map SRow.cb)) A er),
       npTrapezoid
         (ncv_cm3 (ncv (t.map SRow.cf) (dVdC (t.map SRow.v) (t.map SRow.cf)) A er))
         (zcv_nm (zcv (t.map SRow.cf) A er)),
       npTrapezoid
         (ncv_cm3 (ncv (t.map SRow.cb) (dVdC (t.map SRow.v) (t.map SRow.cb)) A er))
         (zcv_nm (zcv (t.map SRow.cb) A er))⟩ := by
  rw [calculate_ncv_zcv, if_neg (by omega)]

/-! Claim theorems. -/

/-- C10 (amended): the `shape[1] < 3` branch is unreachable for every
input in which the `read_csv` tokenizer agrees with `str.split()` on each
line (no quote characters, ASCII whitespace only) — then every retained
line contributes at least 3 fields, so the parsed table has at least 3
columns.  When the two splittings disagree (a quoted region or non-ASCII
whitespace), a retained line can parse to fewer than 3 fields and the
branch is reachable. -/
theorem insufficient_cols_unreachable_of_split_agree (lines : List Line)
    (hag : ∀ l ∈ lines, l.fields = l.toks) :
    process_txt_file lines ≠ ParseOut.insufficientCols := by
  intro h
  simp only [process_txt_file] at h
  split at h
  · exact absurd h (by simp)
  next hne =>
    split at h
    · exact absurd h (by simp)
    next rows heq =>
      split at h
      next hlt =>
        rcases hfil : lines.filter (fun l => decide (3 ≤ l.toks.length)) with _ | ⟨a, as⟩
        · rw [hfil] at hne
          simp at hne
        · have ha : a ∈ lines.filter (fun l => decide (3 ≤ l.toks.length)) := by
            rw [hfil]
            exact List.mem_cons_self a as
          have h3 : 3 ≤ a.toks.length := by simpa using List.of_mem_filter ha
          have hfa : a.fields = a.toks := hag a (List.mem_of_mem_filter ha)
          rw [hfil] at hlt
          simp only [List.map_cons, List.headD_cons] at hlt
          rw [hfa] at hlt
          omega
      next => exact absurd h (by simp)

/-- C10 witness: the theorem at concrete quote-free ASCII lines. -/
theorem insufficient_cols_unreachable_witness :
    (∀ l ∈ linesMixed, l.fields = l.toks) ∧
    process_txt_file linesMixed ≠ ParseOut.insufficientCols :=
  ⟨by decide, insufficient_cols_unreachable_of_split_agree linesMixed (by decide)⟩

/-- C10 counterexample: the single line `"a b c d"` has four `str.split()`
tokens, so it survives the filter, but the `read_csv` tokenizer reads it as
one quoted field, so `df.shape[1] = 1 < 3` and the claimed-dead
insufficient-columns branch is reached. -/
theorem insufficient_cols_reachable_cex :
    3 ≤ quotedLine.toks.length ∧
    process_txt_file [quotedLine] = ParseOut.insufficientCols := by
  decide

/-- C7 (amended): after truncation to the first three columns, `dropna`
drops exactly the rows with a missing (NA) value in a kept column — so no
row of the finalized table has an NA cell in the three kept fields.  Rows
whose kept cells hold non-numeric, non-NA tokens are retained (as
object-dtype strings), so the finalized table is not all-numeric. -/
theorem kept_rows_not_missing (lines : List Line) (rows : List (Cell × Cell × Cell))
    (h : process_txt_file lines = ParseOut.ok rows) :
    ∀ r ∈ rows, isNA r.1 = false ∧ isNA r.2.1 = false ∧ isNA r.2.2 = false := by
  intro r hr
  simp only [process_txt_file] at h
  split at h
  · exact absurd h (by simp)
  · split at h
    · exact absurd h (by simp)
    · split at h
      · exact absurd h (by simp)
      · injection h with h'
        rw [← h'] at hr
        have hp := List.of_mem_filter hr
        simp only [Bool.not_eq_eq_eq_not, Bool.not_true, Bool.or_eq_false_iff] at hp
        exact ⟨hp.1.1, hp.1.2, hp.2⟩

/-- C7 witness: on `linesMixed` the parser succeeds and the theorem applies
to the retained header row. -/
theorem kept_rows_not_missing_witness :
    process_txt_file linesMixed =
      ParseOut.ok [(Cell.txt, Cell.txt, Cell.txt), (Cell.num 1, Cell.num 2, Cell.num 3)] ∧
    (isNA (Cell.txt, Cell.txt, Cell.txt).1 = false ∧
      isNA (Cell.txt, Cell.txt, Cell.txt).2.1 = false ∧
      isNA (Cell.txt, Cell.txt, Cell.txt).2.2 = false) :=
  ⟨by decide,
   kept_rows_not_missing linesMixed
     [(Cell.txt, Cell.txt, Cell.txt), (Cell.num 1, Cell.num 2, Cell.num 3)]
     (by decide) (Cell.txt, Cell.txt, Cell.txt) (by decide)⟩

/-- C7 counterexample: a line of three non-numeric words survives filtering
and `dropna`, so the finalized table contains a row whose kept fields are
not numeric, contradicting the claim that every non-numeric row is
dropped. -/
theorem kept_rows_nonnumeric_retained :
    process_txt_file linesMixed =
      ParseOut.ok [(Cell.txt, Cell.txt, Cell.txt), (Cell.num 1, Cell.num 2, Cell.num 3)] := by
  decide

/-- C2 (amended): the batch is rejected exactly when the set of sample
names collected from successfully processed files has more than one
distinct element, with "Unknown" counted as a distinct value like any
other — not only when two distinct non-"Unknown" names are observed. -/
theorem mixed_sample_iff (A er : ℚ) (files : List CliFile) (names : List (List Char))
    (h : collectSamples A er files = some names) :
    (run_cli_mode A er files = CliOut.mixedSample ↔ 1 < names.dedup.length) := by
  unfold run_cli_mode
  rw [h]
  show (if 1 < names.dedup.length then CliOut.mixedSample
    else CliOut.wrote (names.headD unknownName) names.length) = CliOut.mixedSample ↔ _
  split
  next hgt => simp [hgt]
  next hle => simp [hle]

/-- C2 witness: the theorem applied to a concrete two-file batch whose
collected names are `A1` and "Unknown". -/
theorem mixed_sample_iff_witness :
    collectSamples 1 1 [fileNamed, fileNoName] = some [['A', '1'], unknownName] ∧
    (run_cli_mode 1 1 [fileNamed, fileNoName] = CliOut.mixedSample ↔
      1 < ([['A', '1'], unknownName] : List (List Char)).dedup.length) :=
  ⟨by with_unfolding_all decide,
   mixed_sample_iff 1 1 [fileNamed, fileNoName] [['A', '1'], unknownName]
     (by with_unfolding_all decide)⟩

/-- C2 counterexample: a batch mixing one file of named sample `A1` with
one file whose sampleId is "Unknown" IS rejected by the code (the set
`{A1, Unknown}` has two elements), contradicting the claim that such a
batch is not rejected. -/
theorem mixed_sample_unknown_rejected :
    run_cli_mode 1 1 [fileNamed, fileNoName] = CliOut.mixedSample ∧
    extract_sample_name fileNamed.name = ['A', '1'] ∧
    extract_sample_name fileNoName.name = unknownName := by
  with_unfolding_all decide

/-- C5 (amended): the CLI performs no empty-batch check: when zero files
produce a usable profile the run proceeds under sample name "Unknown" and
reaches the output-writing phase (folder, workbook, plot) with an empty
result set; no `NoValidDataError`-like failure exists. -/
theorem empty_batch_still_writes (A er : ℚ) (files : List CliFile)
    (h : collectSamples A er files = some []) :
    run_cli_mode A er files = CliOut.wrote unknownName 0 := by
  unfold run_cli_mode
  rw [h]
  decide

/-- C5 witness: a batch of one file that is empty after filtering. -/
theorem empty_batch_still_writes_witness :
    collectSamples 1 1 [fileBlank] = some [] ∧
    run_cli_mode 1 1 [fileBlank] = CliOut.wrote unknownName 0 :=
  ⟨by with_unfolding_all decide,
   empty_batch_still_writes 1 1 [fileBlank] (by with_unfolding_all decide)⟩

/-- C5 counterexample: with a single skipped file (zero usable profiles)
the batch does not abort — it reaches the writing phase with an empty
result set, contradicting the claimed `NoValidDataError` failure before
any output artifact is written. -/
theorem empty_batch_writes_output :
    run_cli_mode 1 1 [fileBlank] = CliOut.wrote unknownName 0 := by
  with_unfolding_all decide

/-- C6 (amended): a non-numeric diameter, permittivity or interface — and
likewise a missing `--files` list (`nargs='+', required=True`) — makes
`parse_args` fail before any file is read; but no positivity check exists:
on any non-empty batch, any numeric parameters, including a zero or
negative diameter, are accepted and the diameter is propagated into the
area computation. -/
theorem cli_param_gate (d e i : Option ℚ) (files : List CliFile) :
    (cli_main none e i files = none ∧ cli_main d none i files = none ∧
      cli_main d e none files = none ∧ cli_main d e i [] = none) ∧
    ∀ (dv ev iv : ℚ) (f : CliFile) (fs : List CliFile),
      cli_main (some dv) (some ev) (some iv) (f :: fs) =
        some (run_cli_mode (area dv) ev (f :: fs)) := by
  refine ⟨⟨?_, ?_, ?_, ?_⟩, fun dv ev iv f fs => rfl⟩
  · cases files <;> cases e <;> cases i <;> rfl
  · cases files <;> cases d <;> cases i <;> rfl
  · cases files <;> cases d <;> cases e <;> rfl
  · cases d <;> cases e <;> cases i <;> rfl

/-- C6 counterexample: on a reachable invocation (two valid input files of
one sample at distinct frequencies), a zero diameter is accepted — the run
processes every file and reaches the writing phase instead of failing —
and propagates area 0 into the computation, contradicting the claimed
`InvalidParameterError` for non-positive diameter before any file
processing. -/
theorem zero_diameter_accepted :
    cli_main (some 0) (some 1) (some 0) [fileNamed, fileNamed2] =
      some (CliOut.wrote ['A', '1'] 2) ∧
    area 0 = 0 := by
  with_unfolding_all decide

/-- C8 (amended): for every SweepTable with at least 2 rows (the minimum
`np.gradient` accepts) and any area and permittivity, the computed profile
exists and has exactly as many entries as the table in each of its four
output sequences, with the voltage column preserving the input rows in
order. -/
theorem calculate_profile_lengths (t : SweepTable) (A er : ℚ) (h2 : 2 ≤ t.length) :
    ∃ p, calculate_ncv_zcv t A er = some p ∧
      p.voltage = t.map SRow.v ∧
      p.zf.length = t.length ∧ p.zb.length = t.length ∧
      p.nf.length = t.length ∧ p.nb.length = t.length := by
  refine ⟨_, calculate_eq_some h2, rfl, ?_, ?_, ?_, ?_⟩
  · simp [zcv_nm, zcv]
  · simp [zcv_nm, zcv]
  · simp only [ncv_cm3, ncv, List.length_map, List.length_zipWith, length_dVdC]
    omega
  · simp only [ncv_cm3, ncv, List.length_map, List.length_zipWith, length_dVdC]
    omega

/-- C8 witness: the theorem at a concrete three-row table. -/
theorem calculate_profile_lengths_witness :
    ∃ p, calculate_ncv_zcv tGood 1 1 = some p ∧
      p.voltage = tGood.map SRow.v ∧
      p.zf.length = tGood.length ∧ p.zb.length = tGood.length ∧
      p.nf.length = tGood.length ∧ p.nb.length = tGood.length :=
  calculate_profile_lengths tGood 1 1 (by decide)

/-- C8 counterexample: on a one-row SweepTable `np.gradient` raises
(modelled as `none`), so no one-row Profile is returned, contradicting the
claim for every SweepTable. -/
theorem single_row_no_profile :
    tSingle.length = 1 ∧ calculate_ncv_zcv tSingle 1 1 = none := by
  with_unfolding_all decide

/-- C1 (amended): the sentinel replacement (`np.nan_to_num`) is applied
only to the intermediate dV/dC derivative, not to the depth and density
outputs; a row with zero forward capacitance yields `+inf` depth in the
returned profile (never a finite sentinel), while its density value is
finite zero. -/
theorem zero_cap_row_depth_inf (t : SweepTable) (A er : ℚ) (i : ℕ)
    (h2 : 2 ≤ t.length) (hA : 0 < A) (her : 0 < er) (hi : i < t.length)
    (hc : (t.map SRow.cf).getD i 0 = 0) :
    ∃ p, calculate_ncv_zcv t A er = some p ∧
      p.zf.getD i (EFloat.fin 0) = EFloat.pinf ∧
      p.nf.getD i (EFloat.fin 1) = EFloat.fin 0 := by
  have hCf : i < (t.map SRow.cf).length := by simpa using hi
  have hkz : 0 < epsilon_0 * er * A := mul_pos (mul_pos epsilon_0_pos her) hA
  have hk : 0 < epsilon_0 * er * A ^ 2 * q :=
    mul_pos (mul_pos (mul_pos epsilon_0_pos her) (pow_pos hA 2)) q_pos
  refine ⟨_, calculate_eq_some h2, ?_, ?_⟩
  · have hz : i < (zcv (t.map SRow.cf) A er).length := by simpa [zcv] using hi
    rw [zcv_nm, getD_map_of_lt _ _ hz (EFloat.fin 0) EFloat.nan, zcv,
      getD_map_of_lt _ _ hCf EFloat.nan 0, hc]
    rw [qdiv, if_pos rfl, if_neg hkz.ne', if_pos hkz]
    show emul EFloat.pinf (EFloat.fin 1000000000) = EFloat.pinf
    simp only [emul]
    rw [if_neg e9_pos.ne', if_pos e9_pos]
  · have hd : i < (dVdC (t.map SRow.v) (t.map SRow.cf)).length := by
      rw [length_dVdC]
      simp only [List.length_map]
      omega
    have hn : i < (ncv (t.map SRow.cf) (dVdC (t.map SRow.v) (t.map SRow.cf)) A er).length := by
      rw [ncv, List.length_zipWith, length_dVdC]
      simp only [List.length_map]
      omega
    rw [ncv_cm3, getD_map_of_lt _ _ hn (EFloat.fin 1) EFloat.nan, ncv,
      getD_zipWith_of_lt _ _ _ hCf hd EFloat.nan 0 0, hc]
    rw [show ((0 : ℚ) ^ 3) = 0 from by norm_num]
    rw [qdiv, if_neg hk.ne']
    simp [emul, eabs, zero_div]

/-- C1 witness: the theorem at a table whose second row has zero forward
capacitance. -/
theorem zero_cap_row_depth_inf_witness :
    (tZeroCap.map SRow.cf).getD 1 0 = 0 ∧
    ∃ p, calculate_ncv_zcv tZeroCap 1 1 = some p ∧
      p.zf.getD 1 (EFloat.fin 0) = EFloat.pinf ∧
      p.nf.getD 1 (EFloat.fin 1) = EFloat.fin 0 :=
  ⟨by decide,
   zero_cap_row_depth_inf tZeroCap 1 1 1 (by decide) (by decide) (by decide)
     (by decide) (by decide)⟩

/-- C1 counterexample: with a zero-capacitance row the returned profile
contains `+inf` depth, contradicting the claim that depth and density
outputs are sentinel-replaced and never ±inf. -/
theorem zero_cap_row_depth_inf_cex :
    ((calculate_ncv_zcv tZeroCap 1 1).map (fun p => p.zf.getD 1 (EFloat.fin 0))) =
      some EFloat.pinf := by
  with_unfolding_all decide

/-- C4 (amended): for a table with at least two rows and all capacitances
nonzero, every output sequence of the profile is finite (no NaN, no ±inf)
and both sheet-density integrals are finite; at an index where the
capacitance gradient vanishes, the sentinel-replaced dV/dC resolves to
`0.0` only when the voltage gradient also vanishes there (the 0/0 NaN
case); when the voltage gradient is nonzero it resolves to the ±1e10
sentinel, not 0.0. -/
theorem degenerate_step_profile (t : SweepTable) (A er : ℚ)
    (h2 : 2 ≤ t.length) (hA : 0 < A) (her : 0 < er)
    (hcf : ∀ c ∈ t.map SRow.cf, c ≠ 0) (hcb : ∀ c ∈ t.map SRow.cb, c ≠ 0) :
    (∃ (p : Profile) (zfq zbq nfq nbq : List ℚ) (sF sB : ℚ),
      calculate_ncv_zcv t A er = some p ∧
      p.zf = zfq.map EFloat.fin ∧ p.zb = zbq.map EFloat.fin ∧
      p.nf = nfq.map EFloat.fin ∧ p.nb = nbq.map EFloat.fin ∧
      p.intF = EFloat.fin sF ∧ p.intB = EFloat.fin sB) ∧
    (∀ i < t.length, (npGradient (t.map SRow.cf)).getD i 0 = 0 →
      (dVdC (t.map SRow.v) (t.map SRow.cf)).getD i 0 =
        (if (npGradient (t.map SRow.v)).getD i 0 = 0 then 0
         else if 0 < (npGradient (t.map SRow.v)).getD i 0 then 10000000000 else -10000000000)) := by
  have hk : (0 : ℚ) < epsilon_0 * er * A ^ 2 * q :=
    mul_pos (mul_pos (mul_pos epsilon_0_pos her) (pow_pos hA 2)) q_pos
  have hzf : zcv_nm (zcv (t.map SRow.cf) A er) =
      (((t.map SRow.cf).map (fun c => epsilon_0 * er * A / c)).map (fun x => x * 1000000000)).map
        EFloat.fin := by
    rw [zcv_repr hcf, zcv_nm_repr]
  have hzb : zcv_nm (zcv (t.map SRow.cb) A er) =
      (((t.map SRow.cb).map (fun c => epsilon_0 * er * A / c)).map (fun x => x * 1000000000)).map
        EFloat.fin := by
    rw [zcv_repr hcb, zcv_nm_repr]
  have hnf : ncv_cm3 (ncv (t.map SRow.cf) (dVdC (t.map SRow.v) (t.map SRow.cf)) A er) =
      ((List.zipWith (fun c dv => c ^ 3 / (epsilon_0 * er * A ^ 2 * q) * dv) (t.map SRow.cf)
        (dVdC (t.map SRow.v) (t.map SRow.cf))).map (fun x => |x * (1 / 1000000)|)).map EFloat.fin := by
    rw [ncv_repr hk.ne', ncv_cm3_repr]
  have hnb : ncv_cm3 (ncv (t.map SRow.cb) (dVdC (t.map SRow.v) (t.map SRow.cb)) A er) =
      ((List.zipWith (fun c dv => c ^ 3 / (epsilon_0 * er * A ^ 2 * q) * dv) (t.map SRow.cb)
        (dVdC (t.map SRow.v) (t.map SRow.cb))).map (fun x => |x * (1 / 1000000)|)).map EFloat.fin := by
    rw [ncv_repr hk.ne', ncv_cm3_repr]
  constructor
  · exact ⟨_, _, _, _, _, _, _, calculate_eq_some h2, hzf, hzb, hnf, hnb,
      by rw [hnf, hzf, npTrapezoid_map_fin], by rw [hnb, hzb, npTrapezoid_map_fin]⟩
  · intro i hi hgc
    have hV : i < (t.map SRow.v).length := by simpa using hi
    have hC : i < (t.map SRow.cf).length := by simpa using hi
    rw [getD_dVdC _ _ hV hC, hgc, qdiv, if_pos rfl]
    by_cases hv : (npGradient (t.map SRow.v)).getD i 0 = 0
    · rw [if_pos hv, if_pos hv]
      rfl
    · rw [if_neg hv, if_neg hv]
      by_cases hv' : 0 < (npGradient (t.map SRow.v)).getD i 0
      · rw [if_pos hv', if_pos hv']
        rfl
      · rw [if_neg hv', if_neg hv']
        rfl

/-- C4 witness: the theorem at a table with `ΔC = 0` across exactly the
first forward step, whose degenerate index resolves to the `1e10`
sentinel. -/
theorem degenerate_step_profile_witness :
    (∃ (p : Profile) (zfq zbq nfq nbq : List ℚ) (sF sB : ℚ),
      calculate_ncv_zcv tFlatStep 1 1 = some p ∧
      p.zf = zfq.map EFloat.fin ∧ p.zb = zbq.map EFloat.fin ∧
      p.nf = nfq.map EFloat.fin ∧ p.nb = nbq.map EFloat.fin ∧
      p.intF = EFloat.fin sF ∧ p.intB = EFloat.fin sB) ∧
    (dVdC (tFlatStep.map SRow.v) (tFlatStep.map SRow.cf)).getD 0 0 =
      (if (npGradient (tFlatStep.map SRow.v)).getD 0 0 = 0 then 0
       else if 0 < (npGradient (tFlatStep.map SRow.v)).getD 0 0 then 10000000000 else -10000000000) :=
  ⟨(degenerate_step_profile tFlatStep 1 1 (by decide) (by decide) (by decide)
      (by decide) (by decide)).1,
   (degenerate_step_profile tFlatStep 1 1 (by decide) (by decide) (by decide)
      (by decide) (by decide)).2 0 (by decide) (by with_unfolding_all decide)⟩

/-- C4 counterexample: at the degenerate index (`ΔC = 0` at the first step,
nonzero voltage step) the sentinel-replaced dV/dC is `1e10`, not the
claimed `0.0`. -/
theorem degenerate_step_sentinel_cex :
    (npGradient (tFlatStep.map SRow.cf)).getD 0 0 = 0 ∧
    (dVdC (tFlatStep.map SRow.v) (tFlatStep.map SRow.cf)).getD 0 0 = 10000000000 ∧
    (10000000000 : ℚ) ≠ 0 := by
  have hgc : (npGradient (tFlatStep.map SRow.cf)).getD 0 0 = 0 := by
    with_unfolding_all decide
  have hgv : (npGradient (tFlatStep.map SRow.v)).getD 0 0 = 1 := by
    with_unfolding_all decide
  refine ⟨hgc, ?_, by norm_num⟩
  rw [getD_dVdC _ _ (by decide) (by decide), hgc, hgv, qdiv, if_pos rfl,
    if_neg one_ne_zero, if_pos one_pos]
  rfl

theorem chain_lt_of_gt_pos (kz : ℚ) (hkz : 0 < kz) :
    ∀ (C : List ℚ), List.Chain' (· > ·) C → (∀ c ∈ C, 0 < c) →
      List.Chain' (fun a b => kz / a * 1000000000 < kz / b * 1000000000) C := by
  intro C
  induction C with
  | nil => intro _ _; simp
  | cons a l ih =>
    intro hCm hCp
    cases l with
    | nil => simp
    | cons b l' =>
      rw [List.chain'_cons] at hCm ⊢
      refine ⟨?_, ih hCm.2 (fun c hc => hCp c (List.mem_cons_of_mem _ hc))⟩
      have hb : 0 < b := hCp b (by simp)
      have hba : b < a := hCm.1
      have hdiv : kz / a < kz / b := div_lt_div_of_pos_left hkz hb hba
      exact mul_lt_mul_of_pos_right hdiv e9_pos

theorem chain_le_of_ge_pos (kz : ℚ) (hkz : 0 ≤ kz) :
    ∀ (C : List ℚ), List.Chain' (· ≥ ·) C → (∀ c ∈ C, 0 < c) →
      List.Chain' (fun a b => kz / a * 1000000000 ≤ kz / b * 1000000000) C := by
  intro C
  induction C with
  | nil => intro _ _; simp
  | cons a l ih =>
    intro hCm hCp
    cases l with
    | nil => simp
    | cons b l' =>
      rw [List.chain'_cons] at hCm ⊢
      refine ⟨?_, ih hCm.2 (fun c hc => hCp c (List.mem_cons_of_mem _ hc))⟩
      have hb : 0 < b := hCp b (by simp)
      have hba : b ≤ a := hCm.1
      have hdiv : kz / a ≤ kz / b := div_le_div_of_nonneg_left hkz hb hba
      exact mul_le_mul_of_nonneg_right hdiv (le_of_lt e9_pos)

theorem density_elems_pos (V C : List ℚ) (A er : ℚ) (hlen : C.length = V.length)
    (h2 : 2 ≤ V.length) (hA : 0 < A) (her : 0 < er)
    (hVm : List.Chain' (· < ·) V) (hCm : List.Chain' (· > ·) C) (hCp : ∀ c ∈ C, 0 < c) :
    ∀ y ∈ (List.zipWith (fun c dv => c ^ 3 / (epsilon_0 * er * A ^ 2 * q) * dv) C
      (dVdC V C)).map (fun x => |x * (1 / 1000000)|), 0 < y := by
  intro y hy
  rw [List.mem_map] at hy
  obtain ⟨x, hx, rfl⟩ := hy
  rw [List.mem_iff_getElem] at hx
  obtain ⟨i, hilt, hxi⟩ := hx
  have hiC : i < C.length := by
    rw [List.length_zipWith, length_dVdC] at hilt
    omega
  have hiV : i < V.length := by omega
  have hdvd : i < (dVdC V C).length := by
    rw [length_dVdC]
    omega
  have hxval : x = C[i] ^ 3 / (epsilon_0 * er * A ^ 2 * q) * ((dVdC V C).getD i 0) := by
    rw [← hxi, List.getElem_zipWith, List.getD_eq_getElem _ 0 hdvd]
  have hgV : 0 < (npGradient V).getD i 0 := npGradient_pos h2 hVm hiV
  have h2C : 2 ≤ C.length := by omega
  have hgC : (npGradient C).getD i 0 < 0 := npGradient_neg h2C hCm hiC
  have hdvneg : (dVdC V C).getD i 0 < 0 := by
    rw [getD_dVdC V C hiV hiC, qdiv, if_neg hgC.ne]
    show (npGradient V).getD i 0 / (npGradient C).getD i 0 < 0
    exact div_neg_of_pos_of_neg hgV hgC
  have hc : 0 < C[i] := hCp _ (List.getElem_mem hiC)
  have hkpos : 0 < epsilon_0 * er * A ^ 2 * q :=
    mul_pos (mul_pos (mul_pos epsilon_0_pos her) (pow_pos hA 2)) q_pos
  have hxneg : x < 0 := by
    rw [hxval]
    exact mul_neg_of_pos_of_neg (div_pos (pow_pos hc 3) hkpos) hdvneg
  have hm : x * (1 / 1000000) < 0 := mul_neg_of_neg_of_pos hxneg (by norm_num)
  exact abs_pos.mpr hm.ne

/-- C9: for a table with at least two rows, strictly increasing voltage and
strictly decreasing positive forward capacitance, together with positive
area and permittivity, the computed forward depth sequence is finite and
strictly monotonically increasing and the forward sheet density is a
finite positive value. -/
theorem monotone_sweep_profile (t : SweepTable) (A er : ℚ)
    (h2 : 2 ≤ t.length) (hA : 0 < A) (her : 0 < er)
    (hV : List.Chain' (· < ·) (t.map SRow.v))
    (hC : List.Chain' (· > ·) (t.map SRow.cf))
    (hCp : ∀ c ∈ t.map SRow.cf, 0 < c) :
    ∃ (p : Profile) (zq : List ℚ) (s : ℚ), calculate_ncv_zcv t A er = some p ∧
      p.zf = zq.map EFloat.fin ∧ List.Chain' (· < ·) zq ∧
      p.intF = EFloat.fin s ∧ 0 < s := by
  have hcne : ∀ c ∈ t.map SRow.cf, c ≠ 0 := fun c hc => (hCp c hc).ne'
  have hk : (0 : ℚ) < epsilon_0 * er * A ^ 2 * q :=
    mul_pos (mul_pos (mul_pos epsilon_0_pos her) (pow_pos hA 2)) q_pos
  have hzf : zcv_nm (zcv (t.map SRow.cf) A er) =
      (((t.map SRow.cf).map (fun c => epsilon_0 * er * A / c)).map
        (fun x => x * 1000000000)).map EFloat.fin := by
    rw [zcv_repr hcne, zcv_nm_repr]
  have hnf : ncv_cm3 (ncv (t.map SRow.cf) (dVdC (t.map SRow.v) (t.map SRow.cf)) A er) =
      ((List.zipWith (fun c dv => c ^ 3 / (epsilon_0 * er * A ^ 2 * q) * dv) (t.map SRow.cf)
        (dVdC (t.map SRow.v) (t.map SRow.cf))).map
          (fun x => |x * (1 / 1000000)|)).map EFloat.fin := by
    rw [ncv_repr hk.ne', ncv_cm3_repr]
  have hchain : List.Chain' (· < ·)
      (((t.map SRow.cf).map (fun c => epsilon_0 * er * A / c)).map
        (fun x => x * 1000000000)) := by
    rw [List.map_map, List.chain'_map]
    have hc2 := chain_lt_of_gt_pos (epsilon_0 * er * A)
      (mul_pos (mul_pos epsilon_0_pos her) hA) (t.map SRow.cf) hC hCp
    exact hc2
  have hdens := density_elems_pos (t.map SRow.v) (t.map SRow.cf) A er (by simp)
    (by simpa using h2) hA her hV hC hCp
  have hlens : ((List.zipWith (fun c dv => c ^ 3 / (epsilon_0 * er * A ^ 2 * q) * dv)
      (t.map SRow.cf) (dVdC (t.map SRow.v) (t.map SRow.cf))).map
        (fun x => |x * (1 / 1000000)|)).length =
      (((t.map SRow.cf).map (fun c => epsilon_0 * er * A / c)).map
        (fun x => x * 1000000000)).length := by
    simp only [List.length_map, List.length_zipWith, length_dVdC]
    omega
  have hlen2 : 2 ≤ (((t.map SRow.cf).map (fun c => epsilon_0 * er * A / c)).map
      (fun x => x * 1000000000)).length := by
    simpa using h2
  exact ⟨_, _, _, calculate_eq_some h2, hzf, hchain,
    by rw [hnf, hzf, npTrapezoid_map_fin],
    trapzQ_pos _ _ hlens hlen2 hchain hdens⟩

/-- C9 witness: the theorem at a concrete monotone sweep. -/
theorem monotone_sweep_profile_witness :
    ∃ (p : Profile) (zq : List ℚ) (s : ℚ), calculate_ncv_zcv tGood 1 1 = some p ∧
      p.zf = zq.map EFloat.fin ∧ List.Chain' (· < ·) zq ∧
      p.intF = EFloat.fin s ∧ 0 < s :=
  monotone_sweep_profile tGood 1 1 (by decide) (by decide) (by decide)
    (List.Chain.cons (by decide) (List.Chain.cons (by decide) List.Chain.nil))
    (List.Chain.cons (by decide) (List.Chain.cons (by decide) List.Chain.nil))
    (by decide)

/-- C3 (amended): the per-row density values are always non-negative
finite values, and each integrated sheet density is non-negative whenever
its depth sequence is non-decreasing (capacitances non-increasing and
positive); for a depth-decreasing sweep the trapezoidal path integral can
be negative. -/
theorem sheet_density_nonneg (t : SweepTable) (A er : ℚ)
    (h2 : 2 ≤ t.length) (hA : 0 < A) (her : 0 < er)
    (hfp : ∀ c ∈ t.map SRow.cf, 0 < c) (hbp : ∀ c ∈ t.map SRow.cb, 0 < c)
    (hfm : List.Chain' (· ≥ ·) (t.map SRow.cf))
    (hbm : List.Chain' (· ≥ ·) (t.map SRow.cb)) :
    ∃ (p : Profile) (nfq nbq : List ℚ) (sF sB : ℚ),
      calculate_ncv_zcv t A er = some p ∧
      p.nf = nfq.map EFloat.fin ∧ (∀ y ∈ nfq, 0 ≤ y) ∧
      p.nb = nbq.map EFloat.fin ∧ (∀ y ∈ nbq, 0 ≤ y) ∧
      p.intF = EFloat.fin sF ∧ 0 ≤ sF ∧ p.intB = EFloat.fin sB ∧ 0 ≤ sB := by
  have hk : (0 : ℚ) < epsilon_0 * er * A ^ 2 * q :=
    mul_pos (mul_pos (mul_pos epsilon_0_pos her) (pow_pos hA 2)) q_pos
  have hkz : (0 : ℚ) ≤ epsilon_0 * er * A := le_of_lt (mul_pos (mul_pos epsilon_0_pos her) hA)
  have hfne : ∀ c ∈ t.map SRow.cf, c ≠ 0 := fun c hc => (hfp c hc).ne'
  have hbne : ∀ c ∈ t.map SRow.cb, c ≠ 0 := fun c hc => (hbp c hc).ne'
  have hzf : zcv_nm (zcv (t.map SRow.cf) A er) =
      (((t.map SRow.cf).map (fun c => epsilon_0 * er * A / c)).map
        (fun x => x * 1000000000)).map EFloat.fin := by
    rw [zcv_repr hfne, zcv_nm_repr]
  have hzb : zcv_nm (zcv (t.map SRow.cb) A er) =
      (((t.map SRow.cb).map (fun c => epsilon_0 * er * A / c)).map
        (fun x => x * 1000000000)).map EFloat.fin := by
    rw [zcv_repr hbne, zcv_nm_repr]
  have hnf : ncv_cm3 (ncv (t.map SRow.cf) (dVdC (t.map SRow.v) (t.map SRow.cf)) A er) =
      ((List.zipWith (fun c dv => c ^ 3 / (epsilon_0 * er * A ^ 2 * q) * dv) (t.map SRow.cf)
        (dVdC (t.map SRow.v) (t.map SRow.cf))).map
          (fun x => |x * (1 / 1000000)|)).map EFloat.fin := by
    rw [ncv_repr hk.ne', ncv_cm3_repr]
  have hnb : ncv_cm3 (ncv (t.map SRow.cb) (dVdC (t.map SRow.v) (t.map SRow.cb)) A er) =
      ((List.zipWith (fun c dv => c ^ 3 / (epsilon_0 * er * A ^ 2 * q) * dv) (t.map SRow.cb)
        (dVdC (t.map SRow.v) (t.map SRow.cb))).map
          (fun x => |x * (1 / 1000000)|)).map EFloat.fin := by
    rw [ncv_repr hk.ne', ncv_cm3_repr]
  have habs : ∀ (l1 l2 : List ℚ),
      ∀ y ∈ (List.zipWith (fun c dv => c ^ 3 / (epsilon_0 * er * A ^ 2 * q) * dv) l1 l2).map
        (fun x => |x * (1 / 1000000)|), 0 ≤ y := by
    intro l1 l2 y hy
    rw [List.mem_map] at hy
    obtain ⟨x, _, rfl⟩ := hy
    exact abs_nonneg _
  have hchf : List.Chain' (· ≤ ·)
      (((t.map SRow.cf).map (fun c => epsilon_0 * er * A / c)).map
        (fun x => x * 1000000000)) := by
    rw [List.map_map, List.chain'_map]
    exact chain_le_of_ge_pos (epsilon_0 * er * A) hkz (t.map SRow.cf) hfm hfp
  have hchb : List.Chain' (· ≤ ·)
      (((t.map SRow.cb).map (fun c => epsilon_0 * er * A / c)).map
        (fun x => x * 1000000000)) := by
    rw [List.map_map, List.chain'_map]
    exact chain_le_of_ge_pos (epsilon_0 * er * A) hkz (t.map SRow.cb) hbm hbp
  have hlenf : ((List.zipWith (fun c dv => c ^ 3 / (epsilon_0 * er * A ^ 2 * q) * dv)
      (t.map SRow.cf) (dVdC (t.map SRow.v) (t.map SRow.cf))).map
        (fun x => |x * (1 / 1000000)|)).length =
      (((t.map SRow.cf).map (fun c => epsilon_0 * er * A / c)).map
        (fun x => x * 1000000000)).length := by
    simp only [List.length_map, List.length_zipWith, length_dVdC]
    omega
  have hlenb : ((List.zipWith (fun c dv => c ^ 3 / (epsilon_0 * er * A ^ 2 * q) * dv)
      (t.map SRow.cb) (dVdC (t.map SRow.v) (t.map SRow.cb))).map
        (fun x => |x * (1 / 1000000)|)).length =
      (((t.map SRow.cb).map (fun c => epsilon_0 * er * A / c)).map
        (fun x => x * 1000000000)).length := by
    simp only [List.length_map, List.length_zipWith, length_dVdC]
    omega
  exact ⟨_, _, _, _, _, calculate_eq_some h2, hnf, habs _ _, hnb, habs _ _,
    by rw [hnf, hzf, npTrapezoid_map_fin],
    trapzQ_nonneg _ _ hlenf hchf (habs _ _),
    by rw [hnb, hzb, npTrapezoid_map_fin],
    trapzQ_nonneg _ _ hlenb hchb (habs _ _)⟩

/-- C3 witness: the theorem at a concrete non-increasing positive sweep. -/
theorem sheet_density_nonneg_witness :
    ∃ (p : Profile) (nfq nbq : List ℚ) (sF sB : ℚ),
      calculate_ncv_zcv tGood 1 1 = some p ∧
      p.nf = nfq.map EFloat.fin ∧ (∀ y ∈ nfq, 0 ≤ y) ∧
      p.nb = nbq.map EFloat.fin ∧ (∀ y ∈ nbq, 0 ≤ y) ∧
      p.intF = EFloat.fin sF ∧ 0 ≤ sF ∧ p.intB = EFloat.fin sB ∧ 0 ≤ sB :=
  sheet_density_nonneg tGood 1 1 (by decide) (by decide) (by decide)
    (by decide) (by decide)
    (List.Chain.cons (by decide) (List.Chain.cons (by decide) List.Chain.nil))
    (List.Chain.cons (by decide) (List.Chain.cons (by decide) List.Chain.nil))

/-- C3 counterexample: a sweep with increasing forward capacitance has a
decreasing depth sequence, and the forward sheet density evaluates to a
negative number, contradicting non-negativity regardless of the ordering
of the depth sequence. -/
theorem sheet_density_negative_cex :
    ((calculate_ncv_zcv tIncCap 1 1).map (fun p => efNeg p.intF)) = some true := by
  with_unfolding_all decide

end NcvZcv
